import Mathlib

/-!
Verification of the `trial_bot` repository: the command dialog engine in
`src/dialogs/inputCardDialog.ts` (class `InputCardDialog`) and the synchronous
JSON file store (`JsonDb`).  The TypeScript code is shallowly embedded: a turn
input is a record with an optional text and an optional submission payload,
handlers return the list of activities they send, and the file store is
modelled as explicit state passing over a file-system record.
-/

/-! ## Data model of the dialog engine

A card submission payload carries a `type` discriminant and the type-specific
fields.  Fields absent from the JavaScript object (or set to `null`/
`undefined`) are `none`; a present string is `some`.
-/

structure SubmissionData where
  type : Option String
  sprintId : Option String
  boardId : Option String
  sprintName : Option String
  sprintKey : Option String
  choice : Option String
  prompt : Option String
deriving DecidableEq

/-- A turn input: `context.activity` restricted to the fields the dialog reads. -/
structure Activity where
  text : Option String
  value : Option SubmissionData
deriving DecidableEq

/-- One element of an adaptive card body (`TextBlock`, `Input.Text`, `Input.ChoiceSet`). -/
inductive CardElement where
  | textBlock (text : String)
  | textInput (id : String) (label : String) (isRequired : Bool)
  | choiceSet (id : String) (label : String) (isRequired : Bool)
      (choices : List (String × String))
deriving DecidableEq

/-- An adaptive card: body elements plus the single submit action, whose `data.type`
is the discriminant bound to the next submission. -/
structure AdaptiveCard where
  body : List CardElement
  submitTitle : String
  submitDataType : String
deriving DecidableEq

/-- An outgoing activity: either plain text or one card attachment. -/
inductive Outgoing where
  | text (message : String)
  | card (attachment : AdaptiveCard)
deriving DecidableEq

/-! ## The static card templates and messages -/

/-- The Jira-configuration card sent by `sendJiraInformationCard`. -/
def jiraInformationCard : AdaptiveCard :=
  AdaptiveCard.mk
    [CardElement.textBlock "Configure Jira Notification Form",
     CardElement.textBlock "Please fill out the JIRA Information:",
     CardElement.textInput "sprintId" "Sprint ID" true,
     CardElement.textInput "boardId" "Board Id" true,
     CardElement.textInput "sprintKey" "Sprint Key" false,
     CardElement.textInput "sprintName" "Sprint Name" false]
    "Schedule Notification"
    "jiraInformation"

/-- The cancel-notification card sent by `sendCancelNotificationCard`. -/
def cancelNotificationCard : AdaptiveCard :=
  AdaptiveCard.mk
    [CardElement.textBlock "Cancel Jira Notification",
     CardElement.choiceSet "choice" "Are you sure you want to cancel the notification?"
       true [("Yes", "yes"), ("No", "no")]]
    "Submit Choice"
    "cancelNotification"

/-- The prompt-to-agent card sent by `sendPromptToAgentCard`. -/
def promptToAgentCard : AdaptiveCard :=
  AdaptiveCard.mk
    [CardElement.textBlock "Send Prompt To the Agent",
     CardElement.textInput "prompt" "Prompt" true]
    "Submit Prompt"
    "prompt"

/-- The help text sent by `sendCommandList`. -/
def commandListMessage : String :=
  "🤖 **Available Commands:**\n\n• **Configure** - To setup a notification schedule.\n\n• **Prompt** - To make the agent execute a prompt of your choice.\n\n• **Cancel** - To cancel a notification schedule.\n\nType any command to see the interactive card!"

/-- The validation-error message of `handleJiraInformationSubmission`. -/
def requiredFieldsMessage : String :=
  "❌ Please fill in all required fields (Sprint ID and Board ID)."

/-- The success message of `handleJiraInformationSubmission`, echoing both fields. -/
def jiraSuccessMessage (sprintId boardId : String) : String :=
  "✅ **Notification Created Successfully!**\n\n**Sprint ID:** " ++ sprintId ++
    "\n**Board ID:** " ++ boardId ++ "\n"

/-- The acknowledgement sent by `handlePromptSubmission`. -/
def promptSuccessMessage : String :=
  "✅ **Prompt Sent To Agent Successfully!**\n\n"

/-- The generic acknowledgement of the default branch of `handleCardSubmission`. -/
def thankYouMessage : String := "Thank you for your submission!"

/-! ## The submission handlers -/

/-- JavaScript falsiness of an optional string field: `!x` is true exactly for
`undefined`, `null` and the empty string (a whitespace-only string is truthy). -/
def jsFalsy : Option String → Bool
  | none => true
  | some s => s == ""

/-- JavaScript template interpolation of an optional string: `undefined` renders
as the literal text `undefined`. -/
def jsStringValue : Option String → String
  | some s => s
  | none => "undefined"

/-- Embeds `handleJiraInformationSubmission`: validates `!sprintId || !boardId`, then
sends either the required-fields error or the success message. -/
def handleJiraInformationSubmission (data : SubmissionData) : List Outgoing :=
  if jsFalsy data.sprintId || jsFalsy data.boardId then
    [Outgoing.text requiredFieldsMessage]
  else
    [Outgoing.text (jiraSuccessMessage (jsStringValue data.sprintId) (jsStringValue data.boardId))]

/-- Embeds `handlePromptSubmission`: reads `data.prompt` but sends a fixed acknowledgement. -/
def handlePromptSubmission (_data : SubmissionData) : List Outgoing :=
  [Outgoing.text promptSuccessMessage]

/-- Embeds `handleCancelNotificationSubmission`: its `choice` is compared, case-sensitively,
against the literals `yes` and `no`; any other value leaves `response` empty. -/
def handleCancelNotificationSubmission (data : SubmissionData) : List Outgoing :=
  let response : String :=
    if data.choice = some "yes" then "✅ Notification successfully cancelled."
    else if data.choice = some "no" then "Notification has not been cancelled."
    else ""
  [Outgoing.text response]

/-- Embeds `handleCardSubmission`: dispatch on the `type` discriminant by exact string
comparison, with a generic acknowledgement as the default branch. -/
def handleCardSubmission (submissionData : SubmissionData) : List Outgoing :=
  match submissionData.type with
  | some "jiraInformation" => handleJiraInformationSubmission submissionData
  | some "cancelNotification" => handleCancelNotificationSubmission submissionData
  | some "prompt" => handlePromptSubmission submissionData
  | _ => [Outgoing.text thankYouMessage]

/-- JavaScript whitespace as trimmed by `String.prototype.trim` (ASCII part). -/
def jsIsWs (c : Char) : Bool :=
  c = ' ' || c = '\t' || c = '\n' || c = '\r' || c = '\x0b' || c = '\x0c'

/-- Embeds `String.prototype.toLowerCase` (ASCII letters). -/
def jsToLower (s : String) : String := String.mk (s.data.map Char.toLower)

/-- Embeds `String.prototype.trim`: strips leading and trailing whitespace. -/
def jsTrim (s : String) : String :=
  String.mk (((s.data.dropWhile jsIsWs).reverse.dropWhile jsIsWs).reverse)

/-- The normalisation `text?.toLowerCase().trim()` applied to a turn's text. -/
def normalizeCommand (t : String) : String := jsTrim (jsToLower t)

/-- Embeds `processUserInputStep`: a submission payload, when present, is handled as a
card submission; otherwise the text is lower-cased, trimmed and dispatched to
one of the commands, defaulting to the command list. -/
def processUserInputStep (activity : Activity) : List Outgoing :=
  let userMessage := activity.text.map normalizeCommand
  match activity.value with
  | some submissionData => handleCardSubmission submissionData
  | none =>
    if userMessage = some "help" then [Outgoing.text commandListMessage]
    else if userMessage = some "configure" then [Outgoing.card jiraInformationCard]
    else if userMessage = some "prompt" then [Outgoing.card promptToAgentCard]
    else if userMessage = some "cancel" then [Outgoing.card cancelNotificationCard]
    else [Outgoing.text commandListMessage]

/-! ## Substring containment

Used to state that a message "contains" a value, as the repository tests do
with `String.prototype.includes`. -/

/-- Predicate `charsHavePre needle hay` holds when `needle` is an initial segment of `hay`. -/
def charsHavePre : List Char → List Char → Bool
  | [], _ => true
  | _ :: _, [] => false
  | a :: as, b :: bs => a == b && charsHavePre as bs

/-- Predicate `charsInclude needle hay` holds when `needle` occurs contiguously in `hay`. -/
def charsInclude (needle : List Char) : List Char → Bool
  | [] => charsHavePre needle []
  | c :: rest => charsHavePre needle (c :: rest) || charsInclude needle rest

/-- Predicate `strIncludes hay needle`: `needle` occurs contiguously in `hay`. -/
def strIncludes (hay needle : String) : Bool :=
  charsInclude needle.data hay.data

theorem charsHavePre_append (n rest : List Char) : charsHavePre n (n ++ rest) = true := by
  induction n with
  | nil => rfl
  | cons a as ih => simp [charsHavePre, ih]

theorem charsInclude_append (pre n suf : List Char) :
    charsInclude n (pre ++ n ++ suf) = true := by
  induction pre with
  | nil =>
    simp only [List.nil_append]
    cases h : n ++ suf with
    | nil => cases n <;> simp_all [charsInclude, charsHavePre]
    | cons c rest =>
      rw [charsInclude, ← h, charsHavePre_append, Bool.true_or]
  | cons p pre' ih =>
    simp only [List.cons_append, charsInclude, List.append_eq, ih, Bool.or_true]

theorem strIncludes_append (a b c : String) : strIncludes (a ++ b ++ c) b = true := by
  rw [strIncludes, String.data_append, String.data_append]
  exact charsInclude_append a.data b.data c.data

theorem charsInclude_of_suffix (pre t n : List Char) (h : charsInclude n t = true) :
    charsInclude n (pre ++ t) = true := by
  induction pre with
  | nil => simpa
  | cons p ps ih => simp only [List.cons_append, charsInclude, List.append_eq, ih, Bool.or_true]

theorem strIncludes_append' (a b c : String) : strIncludes (a ++ (b ++ c)) b = true := by
  rw [← String.append_assoc]; exact strIncludes_append a b c

theorem strIncludes_mono (x y n : String) (h : strIncludes y n = true) :
    strIncludes (x ++ y) n = true := by
  rw [strIncludes, String.data_append]
  exact charsInclude_of_suffix x.data y.data n.data h

/-- The success message and the validation-error message are distinct (they differ
already in their first character). -/
theorem jiraSuccessMessage_ne_requiredFields (s b : String) :
    jiraSuccessMessage s b ≠ requiredFieldsMessage := by
  intro h
  have h2 := congrArg (fun t => t.data.head?) h
  simp only [jiraSuccessMessage, String.data_append, List.append_assoc] at h2
  rw [List.head?_append_of_ne_nil _ (by decide)] at h2
  exact absurd h2 (by decide)

/-- Reduction of a text-only turn to an if-chain over the normalised command. -/
theorem processText_eq (s : String) :
    processUserInputStep (Activity.mk (some s) none) =
      (if normalizeCommand s = "help" then [Outgoing.text commandListMessage]
       else if normalizeCommand s = "configure" then [Outgoing.card jiraInformationCard]
       else if normalizeCommand s = "prompt" then [Outgoing.card promptToAgentCard]
       else if normalizeCommand s = "cancel" then [Outgoing.card cancelNotificationCard]
       else [Outgoing.text commandListMessage]) := by
  simp only [processUserInputStep, Option.map_some', Option.some.injEq]

/-! ## Claims about the dialog engine -/

/-- C1 counterexample: a whitespace-only `sprintId` is blank after trimming, so the
claim demands the required-fields error; the code performs no trim (`!sprintId` is
false for a non-empty string), so it answers with the success message instead. -/
theorem c1_counterexample :
    jsTrim " " = "" ∧
    handleJiraInformationSubmission
        (SubmissionData.mk (some "jiraInformation") (some " ") (some "X") none none none none) =
      [Outgoing.text (jiraSuccessMessage " " "X")] ∧
    handleJiraInformationSubmission
        (SubmissionData.mk (some "jiraInformation") (some " ") (some "X") none none none none) ≠
      [Outgoing.text requiredFieldsMessage] := by
  refine ⟨by decide, rfl, ?_⟩
  intro h
  simp only [handleJiraInformationSubmission] at h
  exact absurd h (by decide)

/-- C1 (amended): `handleJiraInformationSubmission` returns the required-fields
error message if and only if `sprintId` or `boardId` is missing or the empty
string (whitespace-only values are accepted, there is no trimming); otherwise it
returns the success message containing both literal values. -/
theorem c1_jira_required_fields (data : SubmissionData) :
    (handleJiraInformationSubmission data = [Outgoing.text requiredFieldsMessage] ↔
      (data.sprintId = none ∨ data.sprintId = some "" ∨
       data.boardId = none ∨ data.boardId = some "")) ∧
    (∀ s b, data.sprintId = some s → s ≠ "" → data.boardId = some b → b ≠ "" →
      handleJiraInformationSubmission data = [Outgoing.text (jiraSuccessMessage s b)] ∧
      strIncludes (jiraSuccessMessage s b) s = true ∧
      strIncludes (jiraSuccessMessage s b) b = true) := by
  constructor
  · constructor
    · intro h
      by_contra hns
      push_neg at hns
      obtain ⟨h1, h2, h3, h4⟩ := hns
      rcases hsp : data.sprintId with _ | s
      · exact h1 hsp
      rcases hbd : data.boardId with _ | b
      · exact h3 hbd
      have hs : s ≠ "" := fun e => h2 (by rw [hsp, e])
      have hb : b ≠ "" := fun e => h4 (by rw [hbd, e])
      have hcond : (jsFalsy (some s) || jsFalsy (some b)) = false := by
        simp [jsFalsy, hs, hb]
      simp only [handleJiraInformationSubmission, hsp, hbd, hcond, Bool.false_eq_true,
        if_false, List.cons.injEq, Outgoing.text.injEq, and_true, jsStringValue] at h
      exact jiraSuccessMessage_ne_requiredFields _ _ h
    · intro h
      have hcond : (jsFalsy data.sprintId || jsFalsy data.boardId) = true := by
        rcases h with h | h | h | h <;> simp [jsFalsy, h]
      simp only [handleJiraInformationSubmission, hcond, if_true]
  · intro s b hsp hs hb hbne
    have hcond : (jsFalsy (some s) || jsFalsy (some b)) = false := by
      simp [jsFalsy, hs, hbne]
    refine ⟨?_, ?_, ?_⟩
    · simp only [handleJiraInformationSubmission, hsp, hb, hcond, Bool.false_eq_true,
        if_false, jsStringValue]
    · rw [jiraSuccessMessage, String.append_assoc, String.append_assoc, String.append_assoc]
      exact strIncludes_append' _ s _
    · rw [jiraSuccessMessage, String.append_assoc, String.append_assoc, String.append_assoc]
      exact strIncludes_mono _ _ b
        (strIncludes_mono _ _ b (strIncludes_append' _ b "\n"))

/-- C1 witness: a fully populated submission yields the success message echoing
both identifiers. -/
theorem c1_witness :
    handleJiraInformationSubmission
        (SubmissionData.mk (some "jiraInformation") (some "SPRINT-123") (some "BOARD-456")
          none none none none) =
      [Outgoing.text (jiraSuccessMessage "SPRINT-123" "BOARD-456")] ∧
    strIncludes (jiraSuccessMessage "SPRINT-123" "BOARD-456") "SPRINT-123" = true ∧
    strIncludes (jiraSuccessMessage "SPRINT-123" "BOARD-456") "BOARD-456" = true :=
  (c1_jira_required_fields _).2 "SPRINT-123" "BOARD-456" rfl (by decide) rfl (by decide)

/-- C3: `handleCancelNotificationSubmission` confirms cancellation exactly for
`choice = "yes"`, declines exactly for `choice = "no"`, and sends an empty
message for any other choice value. -/
theorem c3_cancel_choice (data : SubmissionData) :
    (data.choice = some "yes" → handleCancelNotificationSubmission data =
      [Outgoing.text "✅ Notification successfully cancelled."]) ∧
    (data.choice = some "no" → handleCancelNotificationSubmission data =
      [Outgoing.text "Notification has not been cancelled."]) ∧
    (data.choice ≠ some "yes" → data.choice ≠ some "no" →
      handleCancelNotificationSubmission data = [Outgoing.text ""]) := by
  refine ⟨fun h => ?_, fun h => ?_, fun h1 h2 => ?_⟩ <;>
    simp only [handleCancelNotificationSubmission]
  · rw [if_pos h]
  · rw [if_neg (by rw [h]; decide), if_pos h]
  · rw [if_neg h1, if_neg h2]

/-- C3 witness: the three behaviours at the concrete choices `yes`, `no` and `maybe`. -/
theorem c3_witness :
    handleCancelNotificationSubmission
        (SubmissionData.mk (some "cancelNotification") none none none none (some "yes") none) =
      [Outgoing.text "✅ Notification successfully cancelled."] ∧
    handleCancelNotificationSubmission
        (SubmissionData.mk (some "cancelNotification") none none none none (some "no") none) =
      [Outgoing.text "Notification has not been cancelled."] ∧
    handleCancelNotificationSubmission
        (SubmissionData.mk (some "cancelNotification") none none none none (some "maybe") none) =
      [Outgoing.text ""] :=
  ⟨(c3_cancel_choice _).1 rfl, (c3_cancel_choice _).2.1 rfl,
   (c3_cancel_choice _).2.2 (by decide) (by decide)⟩

/-- C4: on a text-only turn the output is selected by the normalised command
(lower-cased then trimmed): `configure`, `prompt` and `cancel` yield exactly their
card templates, and `help`, the empty string and every unmatched string yield the
help message; dispatch is therefore case- and trim-insensitive. -/
theorem c4_command_dispatch (s s' : String) :
    (normalizeCommand s = normalizeCommand s' →
      processUserInputStep (Activity.mk (some s) none) =
        processUserInputStep (Activity.mk (some s') none)) ∧
    (processUserInputStep (Activity.mk (some s) none) = [Outgoing.card jiraInformationCard] ↔
      normalizeCommand s = "configure") ∧
    (processUserInputStep (Activity.mk (some s) none) = [Outgoing.card promptToAgentCard] ↔
      normalizeCommand s = "prompt") ∧
    (processUserInputStep (Activity.mk (some s) none) = [Outgoing.card cancelNotificationCard] ↔
      normalizeCommand s = "cancel") ∧
    ((normalizeCommand s = "help" ∨
        (normalizeCommand s ≠ "configure" ∧ normalizeCommand s ≠ "prompt" ∧
          normalizeCommand s ≠ "cancel")) →
      processUserInputStep (Activity.mk (some s) none) = [Outgoing.text commandListMessage]) := by
  refine ⟨fun h => ?_, ?_, ?_, ?_, fun h => ?_⟩ <;>
    rw [processText_eq]
  · rw [processText_eq, h]
  · split_ifs with h1 h2 h3 h4 <;> simp_all <;> decide
  · split_ifs with h1 h2 h3 h4 <;> simp_all <;> decide
  · split_ifs with h1 h2 h3 h4 <;> simp_all <;> decide
  · rcases h with h | ⟨h1, h2, h3⟩
    · rw [if_pos h]
    · by_cases gh : normalizeCommand s = "help"
      · rw [if_pos gh]
      · rw [if_neg gh, if_neg h1, if_neg h2, if_neg h3]

/-- C4 witness: case- and trim-insensitivity at a concrete pair, and the help
fallback at an unmatched string. -/
theorem c4_witness :
    processUserInputStep (Activity.mk (some " CONFIGURE ") none) =
      processUserInputStep (Activity.mk (some "configure") none) ∧
    processUserInputStep (Activity.mk (some "random text") none) =
      [Outgoing.text commandListMessage] :=
  ⟨(c4_command_dispatch " CONFIGURE " "configure").1 (by decide),
   (c4_command_dispatch "random text" "random text").2.2.2.2
     (Or.inr ⟨by decide, by decide, by decide⟩)⟩

/-- C6: a submission whose `type` is none of the three known discriminants is
answered with exactly the generic acknowledgement. -/
theorem c6_unknown_type (data : SubmissionData)
    (h1 : data.type ≠ some "jiraInformation") (h2 : data.type ≠ some "cancelNotification")
    (h3 : data.type ≠ some "prompt") :
    handleCardSubmission data = [Outgoing.text thankYouMessage] := by
  unfold handleCardSubmission
  split <;> simp_all

/-- C6 witness: the concrete unknown discriminant `unknownType`. -/
theorem c6_witness :
    handleCardSubmission
        (SubmissionData.mk (some "unknownType") none none none none none none) =
      [Outgoing.text thankYouMessage] :=
  c6_unknown_type _ (by decide) (by decide) (by decide)

/-- C7: when a turn carries a submission payload, it is processed exclusively as a
card submission — the text field is ignored, whatever it is. -/
theorem c7_payload_precedence (text : Option String) (value : SubmissionData) :
    processUserInputStep (Activity.mk text (some value)) = handleCardSubmission value ∧
    processUserInputStep (Activity.mk text (some value)) =
      processUserInputStep (Activity.mk none (some value)) :=
  ⟨rfl, rfl⟩

/-- C9: every invocation of the dialog step emits exactly one outgoing message
(the embedding is a pure function, so there is no other state mutation). -/
theorem c9_exactly_one_message (activity : Activity) :
    (processUserInputStep activity).length = 1 := by
  obtain ⟨t, v⟩ := activity
  cases v with
  | some d =>
    show (handleCardSubmission d).length = 1
    unfold handleCardSubmission handleJiraInformationSubmission handlePromptSubmission
      handleCancelNotificationSubmission
    split <;> (try split) <;> rfl
  | none =>
    simp only [processUserInputStep]
    split_ifs <;> rfl

/-- C10: submission dispatch compares `type` (and `choice`) by exact, case-sensitive,
untrimmed string equality: any discriminant other than the three literals — in
particular a case variant such as `JiraInformation` — takes the generic
acknowledgement branch, and any `choice` other than `yes`/`no` — such as `Yes` —
takes the empty-message branch. -/
theorem c10_exact_dispatch (data : SubmissionData) (ty c : String) :
    (data.type = some ty → ty ≠ "jiraInformation" → ty ≠ "cancelNotification" →
      ty ≠ "prompt" → handleCardSubmission data = [Outgoing.text thankYouMessage]) ∧
    (data.type = some "cancelNotification" → data.choice = some c → c ≠ "yes" → c ≠ "no" →
      handleCardSubmission data = [Outgoing.text ""]) := by
  constructor
  · intro hty h1 h2 h3
    unfold handleCardSubmission
    split <;> simp_all
  · intro hty hc h1 h2
    unfold handleCardSubmission
    rw [hty]
    simp only [handleCancelNotificationSubmission, hc, Option.some.injEq, h1, h2,
      if_false]
  
/-- C10 witness: the case variants `JiraInformation` and `Yes` at concrete payloads. -/
theorem c10_witness :
    handleCardSubmission
        (SubmissionData.mk (some "JiraInformation") (some "S") (some "B") none none none none) =
      [Outgoing.text thankYouMessage] ∧
    handleCardSubmission
        (SubmissionData.mk (some "cancelNotification") none none none none (some "Yes") none) =
      [Outgoing.text ""] :=
  ⟨(c10_exact_dispatch _ "JiraInformation" "x").1 rfl (by decide) (by decide) (by decide),
   (c10_exact_dispatch _ "x" "Yes").2 rfl rfl (by decide) (by decide)⟩

/-! ## JSON values

`JsonDb` serialises with `JSON.stringify(data, null, indent)` and reads back with
`JSON.parse`.  JSON values are modelled with integer numbers (the repository
stores identifiers and flags; IEEE floats are outside the embedding). -/

mutual

inductive Json where
  | null
  | bool (b : Bool)
  | num (n : Int)
  | str (s : String)
  | arr (elements : JsonArr)
  | obj (members : JsonObj)

inductive JsonArr where
  | nil
  | cons (head : Json) (tail : JsonArr)

inductive JsonObj where
  | nil
  | cons (key : String) (value : Json) (tail : JsonObj)

end

/-! ## Serialisation (`JSON.stringify(data, null, indent)`) -/

/-- The decimal digit character for `d < 10`. -/
def digitChar (d : Nat) : Char := Char.ofNat (48 + d)

def isDigitChar (c : Char) : Bool := 48 ≤ c.toNat && c.toNat ≤ 57

def digitVal (c : Char) : Nat := c.toNat - 48

/-- Decimal notation, most significant digit first; the fuel bounds the number
of digits and is in surplus whenever `n < fuel`. -/
def printNatAux : Nat → Nat → List Char
  | 0, _ => []
  | fuel + 1, n =>
    if n < 10 then [digitChar n]
    else printNatAux fuel (n / 10) ++ [digitChar (n % 10)]

/-- Decimal notation of a natural number. -/
def printNat (n : Nat) : List Char := printNatAux (n + 1) n

def printInt : Int → List Char
  | Int.ofNat n => printNat n
  | Int.negSucc m => '-' :: printNat (m + 1)

/-- Lower-case hexadecimal digit for `d < 16`, as `JSON.stringify` emits. -/
def hexDigitChar (d : Nat) : Char :=
  if d < 10 then Char.ofNat (48 + d) else Char.ofNat (87 + d)

/-- The escape sequence `JSON.stringify` uses for one character inside a string:
quote and backslash get a backslash escape, the five named control characters get
their short forms, the remaining control characters get `\u00xx`, and everything
else is emitted verbatim. -/
def escChar (c : Char) : List Char :=
  if c = '"' then ['\\', '"']
  else if c = '\\' then ['\\', '\\']
  else if c = '\n' then ['\\', 'n']
  else if c = '\t' then ['\\', 't']
  else if c = '\r' then ['\\', 'r']
  else if c = '\x08' then ['\\', 'b']
  else if c = '\x0c' then ['\\', 'f']
  else if c.toNat < 32 then
    ['\\', 'u', '0', '0', hexDigitChar (c.toNat / 16), hexDigitChar (c.toNat % 16)]
  else [c]

def escapeChars : List Char → List Char
  | [] => []
  | c :: cs => escChar c ++ escapeChars cs

/-- A quoted JSON string literal. -/
def printString (s : String) : List Char := '"' :: (escapeChars s.data ++ ['"'])

/-- The whitespace `JSON.stringify` inserts after an opening bracket, after a
comma, and before a closing bracket: nothing in compact mode (`indent = 0`),
otherwise a newline plus `indent * level` spaces. -/
def pad (w l : Nat) : List Char :=
  if w = 0 then [] else '\n' :: List.replicate (w * l) ' '

/-- The key separator: `:` in compact mode, `: ` otherwise. -/
def colonPad (w : Nat) : List Char := if w = 0 then [':'] else [':', ' ']

mutual

def printValue (w l : Nat) : Json → List Char
  | Json.null => ['n', 'u', 'l', 'l']
  | Json.bool true => ['t', 'r', 'u', 'e']
  | Json.bool false => ['f', 'a', 'l', 's', 'e']
  | Json.num n => printInt n
  | Json.str s => printString s
  | Json.arr JsonArr.nil => ['[', ']']
  | Json.arr (JsonArr.cons x t) =>
    '[' :: (pad w (l + 1) ++ (printElems w (l + 1) (JsonArr.cons x t) ++ (pad w l ++ [']'])))
  | Json.obj JsonObj.nil => ['\x7b', '\x7d']
  | Json.obj (JsonObj.cons k v t) =>
    '\x7b' :: (pad w (l + 1) ++ (printMembers w (l + 1) (JsonObj.cons k v t) ++
      (pad w l ++ ['\x7d'])))
termination_by structural v => v

def printElems (w l : Nat) : JsonArr → List Char
  | JsonArr.nil => []
  | JsonArr.cons x JsonArr.nil => printValue w l x
  | JsonArr.cons x (JsonArr.cons y t) =>
    printValue w l x ++ (',' :: (pad w l ++ printElems w l (JsonArr.cons y t)))
termination_by structural t => t

def printMembers (w l : Nat) : JsonObj → List Char
  | JsonObj.nil => []
  | JsonObj.cons k v JsonObj.nil => printString k ++ (colonPad w ++ printValue w l v)
  | JsonObj.cons k v (JsonObj.cons k2 v2 t) =>
    printString k ++ (colonPad w ++ (printValue w l v ++
      (',' :: (pad w l ++ printMembers w l (JsonObj.cons k2 v2 t)))))
termination_by structural t => t

end

/-- Embeds `JSON.stringify(v, null, indent)`; an indent above ten is capped at ten. -/
def jsonStringify (v : Json) (indent : Nat) : String :=
  String.mk (printValue (min indent 10) 0 v)

/-! ## Parsing (`JSON.parse`) -/

/-- JSON insignificant whitespace. -/
def isWsChar (c : Char) : Bool := c = ' ' || c = '\n' || c = '\t' || c = '\r'

def skipWs : List Char → List Char
  | [] => []
  | c :: cs => if isWsChar c then skipWs cs else c :: cs

/-- Value of one hexadecimal digit. -/
def hexVal (c : Char) : Option Nat :=
  if 48 ≤ c.toNat && c.toNat ≤ 57 then some (c.toNat - 48)
  else if 97 ≤ c.toNat && c.toNat ≤ 102 then some (c.toNat - 87)
  else if 65 ≤ c.toNat && c.toNat ≤ 70 then some (c.toNat - 55)
  else none

/-- The character denoted by a single-letter escape sequence. -/
def unescapeChar (c : Char) : Option Char :=
  if c = '"' then some '"'
  else if c = '\\' then some '\\'
  else if c = '/' then some '/'
  else if c = 'n' then some '\n'
  else if c = 't' then some '\t'
  else if c = 'r' then some '\r'
  else if c = 'b' then some '\x08'
  else if c = 'f' then some '\x0c'
  else none

/-- Body of a JSON string literal after its opening quote: the decoded characters
and the input following the closing quote. -/
def parseStringBody : List Char → Option (List Char × List Char)
  | [] => none
  | c :: rest =>
    if c = '"' then some ([], rest)
    else if c = '\\' then
      match rest with
      | [] => none
      | e :: rest2 =>
        if e = 'u' then
          match rest2 with
          | h1 :: h2 :: h3 :: h4 :: rest3 =>
            match hexVal h1, hexVal h2, hexVal h3, hexVal h4 with
            | some a, some b, some c2, some d =>
              (parseStringBody rest3).map
                (fun p => (Char.ofNat (((a * 16 + b) * 16 + c2) * 16 + d) :: p.1, p.2))
            | _, _, _, _ => none
          | _ => none
        else
          match unescapeChar e with
          | some u => (parseStringBody rest2).map (fun p => (u :: p.1, p.2))
          | none => none
    else (parseStringBody rest).map (fun p => (c :: p.1, p.2))

/-- Maximal run of decimal digits, accumulated onto `acc`. -/
def parseDigits : Nat → List Char → Nat × List Char
  | acc, [] => (acc, [])
  | acc, c :: cs =>
    if isDigitChar c then parseDigits (acc * 10 + digitVal c) cs else (acc, c :: cs)

mutual

def parseValue : Nat → List Char → Option (Json × List Char)
  | 0, _ => none
  | fuel + 1, cs =>
    match skipWs cs with
    | [] => none
    | c :: rest =>
      if c = 'n' then
        match rest with
        | 'u' :: 'l' :: 'l' :: r => some (Json.null, r)
        | _ => none
      else if c = 't' then
        match rest with
        | 'r' :: 'u' :: 'e' :: r => some (Json.bool true, r)
        | _ => none
      else if c = 'f' then
        match rest with
        | 'a' :: 'l' :: 's' :: 'e' :: r => some (Json.bool false, r)
        | _ => none
      else if c = '"' then
        (parseStringBody rest).map (fun p => (Json.str (String.mk p.1), p.2))
      else if c = '[' then
        match skipWs rest with
        | ']' :: r => some (Json.arr JsonArr.nil, r)
        | _ => (parseElems fuel rest).map (fun p => (Json.arr p.1, p.2))
      else if c = '\x7b' then
        match skipWs rest with
        | '\x7d' :: r => some (Json.obj JsonObj.nil, r)
        | _ => (parseMembers fuel rest).map (fun p => (Json.obj p.1, p.2))
      else if c = '-' then
        match rest with
        | d :: rest2 =>
          if isDigitChar d then
            let p := parseDigits (digitVal d) rest2
            some (Json.num (-(p.1 : Int)), p.2)
          else none
        | [] => none
      else if isDigitChar c then
        let p := parseDigits (digitVal c) rest
        some (Json.num (p.1 : Int), p.2)
      else none

def parseElems : Nat → List Char → Option (JsonArr × List Char)
  | 0, _ => none
  | fuel + 1, cs =>
    match parseValue fuel cs with
    | none => none
    | some (v, r) =>
      match skipWs r with
      | [] => none
      | c :: r2 =>
        if c = ',' then (parseElems fuel r2).map (fun p => (JsonArr.cons v p.1, p.2))
        else if c = ']' then some (JsonArr.cons v JsonArr.nil, r2)
        else none

def parseMembers : Nat → List Char → Option (JsonObj × List Char)
  | 0, _ => none
  | fuel + 1, cs =>
    match skipWs cs with
    | [] => none
    | c :: cs2 =>
      if c = '"' then
        (match parseStringBody cs2 with
         | none => none
         | some (key, cs3) =>
           match skipWs cs3 with
           | [] => none
           | c2 :: cs4 =>
             if c2 = ':' then
               (match parseValue fuel cs4 with
                | none => none
                | some (v, cs5) =>
                  match skipWs cs5 with
                  | [] => none
                  | c3 :: cs6 =>
                    if c3 = ',' then
                      (parseMembers fuel cs6).map
                        (fun p => (JsonObj.cons (String.mk key) v p.1, p.2))
                    else if c3 = '\x7d' then
                      some (JsonObj.cons (String.mk key) v JsonObj.nil, cs6)
                    else none)
             else none)
      else none

end

/-- Embeds `JSON.parse`: parse one value, then require only trailing whitespace. -/
def jsonParse (s : String) : Except String Json :=
  match parseValue (s.data.length + 1) s.data with
  | some (v, rest) =>
    if skipWs rest = [] then Except.ok v
    else Except.error "Unexpected non-whitespace character after JSON data"
  | none => Except.error "Unexpected token in JSON"

/-! ## File-system model

The store's collaborators (`fs` and `path`) are modelled as a record: file
contents, existing directories, and injected non-`ENOENT` failures (permission
errors and the like), so that every catch branch of `JsonDb` is reachable. -/

/-- A Node.js `ErrnoException`: an optional `code` plus the `message`. -/
structure IOError where
  code : Option String
  message : String
deriving DecidableEq

structure FS where
  files : String → Option String
  dirs : String → Bool
  ioFailure : String → Option IOError

/-- The error a Node fs call raises for a missing path. -/
def enoentError (p : String) : IOError :=
  IOError.mk (some "ENOENT") ("ENOENT: no such file or directory, open " ++ p)

/-- Split a character list at every slash. -/
def splitSlash : List Char → List (List Char)
  | [] => [[]]
  | c :: cs =>
    match splitSlash cs with
    | [] => [[c]]
    | h :: t => if c = '/' then [] :: h :: t else (c :: h) :: t

/-- Join components with slashes. -/
def joinSlash : List (List Char) → List Char
  | [] => []
  | [x] => x
  | x :: xs => x ++ '/' :: joinSlash xs

/-- Embeds `path.dirname`: everything before the last slash; `.` when there is no
slash, `/` when the last slash is the leading one. -/
def dirname (p : String) : String :=
  let parts := splitSlash p.data
  if parts.length ≤ 1 then "."
  else
    let d := joinSlash parts.dropLast
    if d = [] then "/" else String.mk d

/-- The directory and each of its ancestors, as created by a recursive `mkdirSync`. -/
def pathAncestors (dir : String) : List String :=
  let parts := splitSlash dir.data
  (List.range parts.length).map (fun i => String.mk (joinSlash (parts.take (i + 1))))

/-- Embeds `fs.mkdirSync(dir, recursive)`: records the directory and its ancestors. -/
def mkdirSyncRec (fs : FS) (dir : String) : Except IOError FS :=
  match fs.ioFailure dir with
  | some e => Except.error e
  | none =>
    Except.ok (FS.mk fs.files
      (fun p => p == dir || (pathAncestors dir).contains p || fs.dirs p) fs.ioFailure)

/-- Embeds `fs.writeFileSync`: fails when the parent directory does not exist. -/
def writeFileSync (fs : FS) (p content : String) : Except IOError FS :=
  match fs.ioFailure p with
  | some e => Except.error e
  | none =>
    if fs.dirs (dirname p) then
      Except.ok (FS.mk (fun q => if q == p then some content else fs.files q)
        fs.dirs fs.ioFailure)
    else Except.error (enoentError p)

/-- Embeds `fs.readFileSync`. -/
def readFileSync (fs : FS) (p : String) : Except IOError String :=
  match fs.ioFailure p with
  | some e => Except.error e
  | none =>
    match fs.files p with
    | some content => Except.ok content
    | none => Except.error (enoentError p)

/-- Embeds `fs.accessSync`: succeeds exactly on an accessible file or directory. -/
def accessSync (fs : FS) (p : String) : Except IOError Unit :=
  match fs.ioFailure p with
  | some e => Except.error e
  | none =>
    if (fs.files p).isSome || fs.dirs p then Except.ok ()
    else Except.error (enoentError p)

/-! ## The `JsonDb` store -/

/-- Embeds `JsonDb.store` with explicit options: optionally create the parent directory,
serialise with the given indent, write, and wrap any failure. -/
def JsonDb.storeWith (fs : FS) (filePath : String) (data : Json)
    (createDirectory : Bool) (indent : Nat) : Except String FS :=
  let afterDir : Except IOError FS :=
    if createDirectory then mkdirSyncRec fs (dirname filePath) else Except.ok fs
  match afterDir with
  | Except.error e =>
    Except.error ("Failed to store data to " ++ filePath ++ ": " ++ e.message)
  | Except.ok fs1 =>
    match writeFileSync fs1 filePath (jsonStringify data indent) with
    | Except.error e =>
      Except.error ("Failed to store data to " ++ filePath ++ ": " ++ e.message)
    | Except.ok fs2 => Except.ok fs2

/-- Embeds `JsonDb.store` with the default options `createDirectory = true, indent = 2`. -/
def JsonDb.store (fs : FS) (filePath : String) (data : Json) : Except String FS :=
  JsonDb.storeWith fs filePath data true 2

/-- Embeds `JsonDb.load`: read, parse, and map an `ENOENT` read failure to the fixed
`File not found ` error; wrap any other failure with the original message. -/
def JsonDb.load (fs : FS) (filePath : String) : Except String Json :=
  match readFileSync fs filePath with
  | Except.error e =>
    if e.code = some "ENOENT" then Except.error "File not found "
    else Except.error ("Failed to load data from " ++ filePath ++ ": " ++ e.message)
  | Except.ok fileContent =>
    match jsonParse fileContent with
    | Except.ok v => Except.ok v
    | Except.error m =>
      Except.error ("Failed to load data from " ++ filePath ++ ": " ++ m)

/-- Embeds `JsonDb.exists`: `accessSync` in a try/catch that degrades to `false`. -/
def JsonDb.exists (fs : FS) (filePath : String) : Bool :=
  match accessSync fs filePath with
  | Except.ok _ => true
  | Except.error _ => false

/-- Sequential `store` then `load` on the same path. -/
def storeThenLoad (fs : FS) (filePath : String) (data : Json) : Except String Json :=
  match JsonDb.store fs filePath data with
  | Except.ok fs2 => JsonDb.load fs2 filePath
  | Except.error e => Except.error e

/-- The empty file system: no files, no directories, no injected failures. -/
def emptyFS : FS := FS.mk (fun _ => none) (fun _ => false) (fun _ => none)

/-- A permission error, the typical non-`ENOENT` failure. -/
def eaccesError : IOError :=
  IOError.mk (some "EACCES") "EACCES: permission denied, open secret.json"

/-- A file system on which `secret.json` raises `EACCES`. -/
def lockedFS : FS :=
  FS.mk (fun _ => none) (fun _ => false)
    (fun p => if p == "secret.json" then some eaccesError else none)

/-- A file system holding one file whose content is not JSON. -/
def badJsonFS : FS :=
  FS.mk (fun p => if p == "bad.json" then some "not json" else none)
    (fun _ => false) (fun _ => none)

theorem strIncludes_append_right (a b : String) : strIncludes (a ++ b) b = true := by
  rw [strIncludes, String.data_append]
  have h := charsInclude_append a.data b.data []
  simpa using h

/-- C2 counterexample: on a missing file, `load` fails with the fixed message
`File not found `, which carries neither the original `ENOENT` message nor even
the path (the repository's own db test expects the path in that message). -/
theorem c2_counterexample :
    JsonDb.load emptyFS "missing.json" = Except.error "File not found " ∧
    strIncludes "File not found " (enoentError "missing.json").message = false ∧
    strIncludes "File not found " "missing.json" = false := by
  refine ⟨rfl, by decide, by decide⟩

/-- C2 (amended): `load` fails with the distinct fixed message `File not found `
exactly when the underlying read error carries the code `ENOENT` — that message
does not include the original error message; every other read failure and every
parse failure is wrapped as `Failed to load data from <path>: <original message>`,
which does contain the original message and is never the file-not-found message. -/
theorem c2_load_errors (fs : FS) (p : String) :
    (∀ e, readFileSync fs p = Except.error e → e.code = some "ENOENT" →
      JsonDb.load fs p = Except.error "File not found ") ∧
    (∀ e, readFileSync fs p = Except.error e → e.code ≠ some "ENOENT" →
      JsonDb.load fs p =
        Except.error ("Failed to load data from " ++ p ++ ": " ++ e.message) ∧
      strIncludes ("Failed to load data from " ++ p ++ ": " ++ e.message) e.message = true) ∧
    (∀ content m, readFileSync fs p = Except.ok content →
      jsonParse content = Except.error m →
      JsonDb.load fs p = Except.error ("Failed to load data from " ++ p ++ ": " ++ m) ∧
      strIncludes ("Failed to load data from " ++ p ++ ": " ++ m) m = true) ∧
    (∀ m, ("Failed to load data from " ++ p ++ ": " ++ m) ≠ "File not found ") := by
  refine ⟨fun e he hc => ?_, fun e he hc => ⟨?_, ?_⟩, fun content m hr hp => ⟨?_, ?_⟩,
    fun m hm => ?_⟩
  · simp [JsonDb.load, he, hc]
  · simp [JsonDb.load, he, hc]
  · exact strIncludes_append_right _ _
  · simp [JsonDb.load, hr, hp]
  · exact strIncludes_append_right _ _
  · have h2 := congrArg (fun t => t.data.take 4) hm
    simp only [String.data_append, List.append_assoc] at h2
    rw [List.take_append_of_le_length (by decide)] at h2
    exact absurd h2 (by decide)

/-- C2 witness: the three failure kinds at concrete file systems. -/
theorem c2_witness :
    JsonDb.load lockedFS "secret.json" =
      Except.error ("Failed to load data from " ++ "secret.json" ++ ": " ++
        eaccesError.message) ∧
    strIncludes ("Failed to load data from " ++ "secret.json" ++ ": " ++
      eaccesError.message) eaccesError.message = true ∧
    JsonDb.load badJsonFS "bad.json" =
      Except.error ("Failed to load data from " ++ "bad.json" ++ ": " ++
        "Unexpected token in JSON") ∧
    JsonDb.load emptyFS "missing.json" = Except.error "File not found " :=
  ⟨((c2_load_errors lockedFS "secret.json").2.1 eaccesError rfl (by decide)).1,
   ((c2_load_errors lockedFS "secret.json").2.1 eaccesError rfl (by decide)).2,
   ((c2_load_errors badJsonFS "bad.json").2.2.1 "not json" "Unexpected token in JSON"
      rfl rfl).1,
   (c2_load_errors emptyFS "missing.json").1 (enoentError "missing.json") rfl rfl⟩

/-- C8: `JsonDb.exists` is a total Boolean function — the `accessSync` failure is
caught and degrades to `false` — returning `true` exactly when the path is
accessible (a readable file or directory with no injected access failure). -/
theorem c8_exists_no_raise (fs : FS) (p : String) :
    (JsonDb.exists fs p = true ↔ accessSync fs p = Except.ok ()) ∧
    (∀ e, accessSync fs p = Except.error e → JsonDb.exists fs p = false) ∧
    JsonDb.exists fs p = (((fs.files p).isSome || fs.dirs p) && (fs.ioFailure p).isNone) := by
  refine ⟨?_, fun e he => ?_, ?_⟩
  · cases h : accessSync fs p with
    | ok u => cases u; simp [JsonDb.exists, h]
    | error e => simp [JsonDb.exists, h]
  · simp [JsonDb.exists, he]
  · cases hio : fs.ioFailure p with
    | some e => simp [JsonDb.exists, accessSync, hio]
    | none =>
      cases hacc : ((fs.files p).isSome || fs.dirs p) <;>
        simp [JsonDb.exists, accessSync, hio, hacc]

/-- C8 witness: a missing path and a permission-denied path both yield `false`
without an exception; a present file yields `true`. -/
theorem c8_witness :
    JsonDb.exists emptyFS "missing.json" = false ∧
    JsonDb.exists lockedFS "secret.json" = false ∧
    JsonDb.exists badJsonFS "bad.json" = true :=
  ⟨(c8_exists_no_raise emptyFS "missing.json").2.1 (enoentError "missing.json") rfl,
   (c8_exists_no_raise lockedFS "secret.json").2.1 eaccesError rfl,
   (c8_exists_no_raise badJsonFS "bad.json").1.mpr rfl⟩

/-! ## Round trip: digits -/

theorem isDigitChar_digitChar (d : Nat) (h : d < 10) : isDigitChar (digitChar d) = true := by
  interval_cases d <;> decide

theorem digitVal_digitChar (d : Nat) (h : d < 10) : digitVal (digitChar d) = d := by
  interval_cases d <;> decide

theorem printNatAux_congr (f1 : Nat) : ∀ f2 n, n < f1 → n < f2 →
    printNatAux f1 n = printNatAux f2 n := by
  induction f1 with
  | zero => omega
  | succ f1 ih =>
    intro f2 n hn1 hn2
    cases f2 with
    | zero => omega
    | succ f2 =>
      simp only [printNatAux]
      by_cases h : n < 10
      · rw [if_pos h, if_pos h]
      · rw [if_neg h, if_neg h, ih f2 (n / 10) (by omega) (by omega)]

/-- The recursive unfolding of `printNat`. -/
theorem printNat_eq (n : Nat) :
    printNat n = if n < 10 then [digitChar n] else printNat (n / 10) ++ [digitChar (n % 10)] := by
  rw [printNat, printNatAux]
  by_cases h : n < 10
  · rw [if_pos h, if_pos h]
  · rw [if_neg h, if_neg h, printNat,
      printNatAux_congr n (n / 10 + 1) (n / 10) (by omega) (by omega)]

theorem printNat_head (n : Nat) :
    ∃ c cs, printNat n = c :: cs ∧ isDigitChar c = true := by
  induction n using Nat.strong_induction_on with
  | _ n ih =>
    rw [printNat_eq]
    by_cases h : n < 10
    · exact ⟨digitChar n, [], by rw [if_pos h], isDigitChar_digitChar n h⟩
    · obtain ⟨c, cs, hc, hd⟩ := ih (n / 10) (Nat.div_lt_self (by omega) (by omega))
      exact ⟨c, cs ++ [digitChar (n % 10)], by rw [if_neg h, hc]; rfl, hd⟩

/-- Lemma: `parseDigits` consumes a printed number wholesale, shifting it into the
accumulator. -/
theorem parseDigits_printNat (n : Nat) : ∀ acc rest,
    parseDigits acc (printNat n ++ rest) =
      parseDigits (acc * 10 ^ (printNat n).length + n) rest := by
  induction n using Nat.strong_induction_on with
  | _ n ih =>
    intro acc rest
    rw [printNat_eq]
    by_cases h : n < 10
    · rw [if_pos h]
      simp only [List.cons_append, List.nil_append, List.append_eq, parseDigits,
        isDigitChar_digitChar n h, digitVal_digitChar n h, if_true, List.length_cons,
        List.length_nil, pow_one, pow_zero, mul_one, Nat.zero_add]
    · rw [if_neg h]
      rw [List.append_assoc, List.cons_append, List.nil_append,
        ih (n / 10) (Nat.div_lt_self (by omega) (by omega))]
      have h10 : n % 10 < 10 := Nat.mod_lt n (by omega)
      simp only [parseDigits, isDigitChar_digitChar _ h10, digitVal_digitChar _ h10,
        if_true, List.length_append, List.length_cons, List.length_nil, Nat.zero_add]
      congr 1
      have hdm : n / 10 * 10 + n % 10 = n := by omega
      calc (acc * 10 ^ (printNat (n / 10)).length + n / 10) * 10 + n % 10
          = acc * (10 ^ (printNat (n / 10)).length * 10) + (n / 10 * 10 + n % 10) := by
            ring
        _ = acc * 10 ^ ((printNat (n / 10)).length + 1) + n := by rw [hdm, ← pow_succ]

/-- A list that does not begin with a digit. -/
def headNonDigit : List Char → Bool
  | [] => true
  | c :: _ => !isDigitChar c

theorem parseDigits_stop (a : Nat) (rest : List Char) (h : headNonDigit rest = true) :
    parseDigits a rest = (a, rest) := by
  cases rest with
  | nil => rfl
  | cons c cs =>
    simp only [headNonDigit, Bool.not_eq_true'] at h
    simp [parseDigits, h]

/-! ## Round trip: whitespace and character classes -/

/-- A list made only of JSON whitespace. -/
def wsList (l : List Char) : Bool := l.all isWsChar

theorem skipWs_append_ws (ws cs : List Char) (h : wsList ws = true) :
    skipWs (ws ++ cs) = skipWs cs := by
  induction ws with
  | nil => rfl
  | cons c t ih =>
    simp only [wsList, List.all_cons, Bool.and_eq_true] at h
    simp only [List.cons_append, skipWs, h.1, if_true]
    exact ih h.2

theorem skipWs_not_ws (c : Char) (cs : List Char) (h : isWsChar c = false) :
    skipWs (c :: cs) = c :: cs := by
  simp [skipWs, h]

theorem wsList_replicate_space (n : Nat) : wsList (List.replicate n ' ') = true := by
  induction n with
  | zero => rfl
  | succ n ih => simp [wsList, List.replicate_succ, isWsChar]

theorem wsList_pad (w l : Nat) : wsList (pad w l) = true := by
  rw [pad]
  split
  · rfl
  · simp only [wsList, List.all_cons, Bool.and_eq_true]
    exact ⟨by decide, wsList_replicate_space (w * l)⟩

theorem isWsChar_not_digit (c : Char) (h : isWsChar c = true) : isDigitChar c = false := by
  simp only [isWsChar, Bool.or_eq_true, decide_eq_true_eq, or_assoc] at h
  rcases h with h | h | h | h <;> subst h <;> decide

theorem headNonDigit_ws_cons (ws : List Char) (x : Char) (r : List Char)
    (hws : wsList ws = true) (hx : isDigitChar x = false) :
    headNonDigit (ws ++ x :: r) = true := by
  cases ws with
  | nil => simp [headNonDigit, hx]
  | cons c t =>
    simp only [wsList, List.all_cons, Bool.and_eq_true] at hws
    simp [headNonDigit, isWsChar_not_digit c hws.1]

/-- Everything the digit branch of `parseValue` needs to know about a digit
character: it is none of the dispatch literals, not whitespace, and not a
closing token. -/
theorem digitChar_class (c : Char) (h : isDigitChar c = true) :
    c ≠ 'n' ∧ c ≠ 't' ∧ c ≠ 'f' ∧ c ≠ '"' ∧ c ≠ '[' ∧ c ≠ '\x7b' ∧ c ≠ '-' ∧
    isWsChar c = false ∧ c ≠ ']' ∧ c ≠ '\x7d' := by
  refine ⟨?_, ?_, ?_, ?_, ?_, ?_, ?_, ?_, ?_, ?_⟩ <;>
    first
    | (intro he; rw [he] at h; exact absurd h (by decide))
    | (cases hw : isWsChar c
       · rfl
       · simp only [isWsChar, Bool.or_eq_true, decide_eq_true_eq, or_assoc] at hw
         rcases hw with hw | hw | hw | hw <;> rw [hw] at h <;> exact absurd h (by decide))

/-! ## Round trip: strings -/

theorem hexVal_hexDigitChar (d : Nat) (h : d < 16) : hexVal (hexDigitChar d) = some d := by
  interval_cases d <;> decide

theorem parseStringBody_quote (l : List Char) : parseStringBody ('"' :: l) = some ([], l) := by
  rw [parseStringBody.eq_def]; simp

theorem parseStringBody_esc (e u : Char) (l : List Char) (he : e ≠ 'u')
    (hu : unescapeChar e = some u) :
    parseStringBody ('\\' :: e :: l) = (parseStringBody l).map (fun p => (u :: p.1, p.2)) := by
  rw [parseStringBody.eq_def]; simp +decide [he, hu]

theorem parseStringBody_hex (h1 h2 h3 h4 : Char) (a b c2 d : Nat) (l : List Char)
    (v1 : hexVal h1 = some a) (v2 : hexVal h2 = some b) (v3 : hexVal h3 = some c2)
    (v4 : hexVal h4 = some d) :
    parseStringBody ('\\' :: 'u' :: h1 :: h2 :: h3 :: h4 :: l) =
      (parseStringBody l).map
        (fun p => (Char.ofNat (((a * 16 + b) * 16 + c2) * 16 + d) :: p.1, p.2)) := by
  rw [parseStringBody.eq_def]; simp +decide [v1, v2, v3, v4]

theorem parseStringBody_plain (c : Char) (l : List Char) (h1 : c ≠ '"') (h2 : c ≠ '\\') :
    parseStringBody (c :: l) = (parseStringBody l).map (fun p => (c :: p.1, p.2)) := by
  rw [parseStringBody.eq_def]; simp [h1, h2]

theorem parseStringBody_escape (cs : List Char) : ∀ rest,
    parseStringBody (escapeChars cs ++ ('"' :: rest)) = some (cs, rest) := by
  induction cs with
  | nil => intro rest; exact parseStringBody_quote rest
  | cons c cs ih =>
    intro rest
    simp only [escapeChars, List.append_assoc]
    rw [escChar]
    split_ifs with h1 h2 h3 h4 h5 h6 h7 h8
    · subst h1
      rw [List.cons_append, List.cons_append, List.nil_append,
        parseStringBody_esc _ _ _ (by decide) (by decide : unescapeChar '"' = some '"'), ih]
      rfl
    · subst h2
      rw [List.cons_append, List.cons_append, List.nil_append,
        parseStringBody_esc _ _ _ (by decide) (by decide : unescapeChar '\\' = some '\\'),
        ih]
      rfl
    · subst h3
      rw [List.cons_append, List.cons_append, List.nil_append,
        parseStringBody_esc _ _ _ (by decide) (by decide : unescapeChar 'n' = some '\n'), ih]
      rfl
    · subst h4
      rw [List.cons_append, List.cons_append, List.nil_append,
        parseStringBody_esc _ _ _ (by decide) (by decide : unescapeChar 't' = some '\t'), ih]
      rfl
    · subst h5
      rw [List.cons_append, List.cons_append, List.nil_append,
        parseStringBody_esc _ _ _ (by decide) (by decide : unescapeChar 'r' = some '\x0d'),
        ih]
      rfl
    · subst h6
      rw [List.cons_append, List.cons_append, List.nil_append,
        parseStringBody_esc _ _ _ (by decide) (by decide : unescapeChar 'b' = some '\x08'),
        ih]
      rfl
    · subst h7
      rw [List.cons_append, List.cons_append, List.nil_append,
        parseStringBody_esc _ _ _ (by decide) (by decide : unescapeChar 'f' = some '\x0c'),
        ih]
      rfl
    · simp only [List.cons_append, List.nil_append]
      rw [parseStringBody_hex _ _ _ _ 0 0 (c.toNat / 16) (c.toNat % 16) _ (by decide)
        (by decide) (hexVal_hexDigitChar (c.toNat / 16) (by omega))
        (hexVal_hexDigitChar (c.toNat % 16) (by omega)), ih]
      have hc : ((0 * 16 + 0) * 16 + c.toNat / 16) * 16 + c.toNat % 16 = c.toNat := by
        omega
      have hc2 : c.toNat / 16 * 16 + c.toNat % 16 = c.toNat := by omega
      simp [hc, hc2, Char.ofNat_toNat]
    · rw [List.cons_append, List.nil_append, parseStringBody_plain c _ h1 h2, ih]
      rfl

/-! ## Round trip: fuel measure and head characters -/

mutual

/-- Fuel needed by `parseValue` to parse a printed value. -/
def jsize : Json → Nat
  | Json.null => 1
  | Json.bool _ => 1
  | Json.num _ => 1
  | Json.str _ => 1
  | Json.arr a => jsizeArr a + 1
  | Json.obj o => jsizeObj o + 1
termination_by structural v => v

def jsizeArr : JsonArr → Nat
  | JsonArr.nil => 0
  | JsonArr.cons x t => jsize x + jsizeArr t + 1
termination_by structural t => t

def jsizeObj : JsonObj → Nat
  | JsonObj.nil => 0
  | JsonObj.cons _ v t => jsize v + jsizeObj t + 1
termination_by structural t => t

end

theorem jsize_pos (v : Json) : 1 ≤ jsize v := by
  cases v <;> simp [jsize]

theorem printNat_ne_nil (n : Nat) : printNat n ≠ [] := by
  rw [printNat_eq]
  split
  · exact List.cons_ne_nil _ _
  · exact fun h => absurd (List.append_eq_nil.mp h).2 (List.cons_ne_nil _ _)

/-- Every printed value starts with one of the parser's dispatch characters. -/
theorem printValue_head (w l : Nat) (v : Json) :
    ∃ c cs, printValue w l v = c :: cs ∧
      (c = 'n' ∨ c = 't' ∨ c = 'f' ∨ c = '"' ∨ c = '[' ∨ c = '\x7b' ∨ c = '-' ∨
        isDigitChar c = true) := by
  cases v with
  | null => exact ⟨'n', ['u', 'l', 'l'], by simp [printValue], by tauto⟩
  | bool b =>
    cases b
    · exact ⟨'f', ['a', 'l', 's', 'e'], by simp [printValue], by tauto⟩
    · exact ⟨'t', ['r', 'u', 'e'], by simp [printValue], by tauto⟩
  | num i =>
    cases i with
    | ofNat n =>
      obtain ⟨c, cs, hc, hd⟩ := printNat_head n
      exact ⟨c, cs, by simp [printValue, printInt, hc], by tauto⟩
    | negSucc m => exact ⟨'-', printNat (m + 1), by simp [printValue, printInt], by tauto⟩
  | str s => exact ⟨'"', escapeChars s.data ++ ['"'], by simp [printValue, printString], by tauto⟩
  | arr a =>
    cases a with
    | nil => exact ⟨'[', [']'], by simp [printValue], by tauto⟩
    | cons x t =>
      exact ⟨'[', pad w (l + 1) ++ (printElems w (l + 1) (JsonArr.cons x t) ++
        (pad w l ++ [']'])), by simp [printValue], by tauto⟩
  | obj o =>
    cases o with
    | nil => exact ⟨'\x7b', ['\x7d'], by simp [printValue], by tauto⟩
    | cons k x t =>
      exact ⟨'\x7b', pad w (l + 1) ++ (printMembers w (l + 1) (JsonObj.cons k x t) ++
        (pad w l ++ ['\x7d'])), by simp [printValue], by tauto⟩

/-- A value-start character is not whitespace and not a closing bracket. -/
theorem valueStart_facts (c : Char)
    (h : c = 'n' ∨ c = 't' ∨ c = 'f' ∨ c = '"' ∨ c = '[' ∨ c = '\x7b' ∨ c = '-' ∨
      isDigitChar c = true) :
    isWsChar c = false ∧ c ≠ ']' ∧ c ≠ '\x7d' := by
  rcases h with h | h | h | h | h | h | h | h
  · subst h; exact ⟨by decide, by decide, by decide⟩
  · subst h; exact ⟨by decide, by decide, by decide⟩
  · subst h; exact ⟨by decide, by decide, by decide⟩
  · subst h; exact ⟨by decide, by decide, by decide⟩
  · subst h; exact ⟨by decide, by decide, by decide⟩
  · subst h; exact ⟨by decide, by decide, by decide⟩
  · subst h; exact ⟨by decide, by decide, by decide⟩
  · obtain ⟨-, -, -, -, -, -, -, hw, hrb, hrc⟩ := digitChar_class c h
    exact ⟨hw, hrb, hrc⟩


/-! ## Round trip: one-step laws of `parseValue` -/

theorem parseValue_ws (f : Nat) (ws cs : List Char) (h : wsList ws = true) :
    parseValue (f + 1) (ws ++ cs) = parseValue (f + 1) cs := by
  simp only [parseValue]
  rw [skipWs_append_ws ws cs h]

theorem parseValue_null_tok (f : Nat) (r : List Char) :
    parseValue (f + 1) ('n' :: 'u' :: 'l' :: 'l' :: r) = some (Json.null, r) := by
  rw [parseValue]
  simp +decide [skipWs]

theorem parseValue_true_tok (f : Nat) (r : List Char) :
    parseValue (f + 1) ('t' :: 'r' :: 'u' :: 'e' :: r) = some (Json.bool true, r) := by
  rw [parseValue]
  simp +decide [skipWs]

theorem parseValue_false_tok (f : Nat) (r : List Char) :
    parseValue (f + 1) ('f' :: 'a' :: 'l' :: 's' :: 'e' :: r) = some (Json.bool false, r) := by
  rw [parseValue]
  simp +decide [skipWs]

theorem parseValue_quote (f : Nat) (cs : List Char) :
    parseValue (f + 1) ('"' :: cs) =
      (parseStringBody cs).map (fun p => (Json.str (String.mk p.1), p.2)) := by
  rw [parseValue]
  simp +decide [skipWs]

theorem parseValue_lbracket (f : Nat) (cs : List Char) :
    parseValue (f + 1) ('[' :: cs) =
      (match skipWs cs with
       | ']' :: r => some (Json.arr JsonArr.nil, r)
       | _ => (parseElems f cs).map (fun p => (Json.arr p.1, p.2))) := by
  rw [parseValue]
  simp +decide [skipWs]

theorem parseValue_lbrace (f : Nat) (cs : List Char) :
    parseValue (f + 1) ('\x7b' :: cs) =
      (match skipWs cs with
       | '\x7d' :: r => some (Json.obj JsonObj.nil, r)
       | _ => (parseMembers f cs).map (fun p => (Json.obj p.1, p.2))) := by
  rw [parseValue]
  simp +decide [skipWs]

theorem parseValue_minus (f : Nat) (cs : List Char) :
    parseValue (f + 1) ('-' :: cs) =
      (match cs with
       | d :: rest2 =>
         if isDigitChar d then
           some (Json.num (-((parseDigits (digitVal d) rest2).1 : Int)),
             (parseDigits (digitVal d) rest2).2)
         else none
       | [] => none) := by
  rw [parseValue]
  simp +decide [skipWs]

theorem parseValue_digit (f : Nat) (c : Char) (cs : List Char) (h : isDigitChar c = true) :
    parseValue (f + 1) (c :: cs) =
      some (Json.num ((parseDigits (digitVal c) cs).1 : Int),
        (parseDigits (digitVal c) cs).2) := by
  obtain ⟨hn, ht, hf2, hq, hlb, hlc, hm, hw, -, -⟩ := digitChar_class c h
  rw [parseValue]
  rw [skipWs_not_ws c cs hw]
  simp only [hn, ht, hf2, hq, hlb, hlc, hm, h, if_false, if_true]

/-- The whitespace after the colon separator. -/
def colonTail (w : Nat) : List Char := if w = 0 then [] else [' ']

theorem colonPad_eq (w : Nat) : colonPad w = ':' :: colonTail w := by
  rw [colonPad, colonTail]; split_ifs <;> rfl

theorem wsList_colonTail (w : Nat) : wsList (colonTail w) = true := by
  rw [colonTail]; split_ifs <;> decide

theorem printElems_head (w l : Nat) (x : Json) (t : JsonArr) (c0 : Char) (cs0 : List Char)
    (hc0 : printValue w l x = c0 :: cs0) :
    ∃ tail0, printElems w l (JsonArr.cons x t) = c0 :: tail0 := by
  cases t with
  | nil => exact ⟨cs0, by simp [printElems, hc0]⟩
  | cons y t2 =>
    exact ⟨cs0 ++ (',' :: (pad w l ++ printElems w l (JsonArr.cons y t2))),
      by simp [printElems, hc0]⟩

theorem printMembers_head (w l : Nat) (k : String) (v : Json) (t : JsonObj) :
    ∃ tailm, printMembers w l (JsonObj.cons k v t) = '"' :: tailm := by
  cases t with
  | nil =>
    exact ⟨(escapeChars k.data ++ ['"']) ++ (colonPad w ++ printValue w l v), by
      simp [printMembers, printString, List.append_assoc]⟩
  | cons k2 v2 t2 =>
    exact ⟨(escapeChars k.data ++ ['"']) ++ (colonPad w ++ (printValue w l v ++
      (',' :: (pad w l ++ printMembers w l (JsonObj.cons k2 v2 t2))))), by
      simp [printMembers, printString, List.append_assoc]⟩

mutual

theorem parseValue_print : ∀ (v : Json) (f w l : Nat) (ws rest : List Char),
    jsize v ≤ f → wsList ws = true → headNonDigit rest = true →
    parseValue f (ws ++ (printValue w l v ++ rest)) = some (v, rest)
  | Json.null, f, w, l, ws, rest => by
    intro hf hws hrest
    obtain ⟨f', rfl⟩ : ∃ f', f = f' + 1 := ⟨f - 1, by have := jsize_pos Json.null; omega⟩
    rw [parseValue_ws f' ws _ hws]
    simp only [printValue, List.cons_append, List.nil_append]
    exact parseValue_null_tok f' rest
  | Json.bool false, f, w, l, ws, rest => by
    intro hf hws hrest
    obtain ⟨f', rfl⟩ : ∃ f', f = f' + 1 := ⟨f - 1, by simp only [jsize, jsizeArr, jsizeObj] at hf; omega⟩
    rw [parseValue_ws f' ws _ hws]
    simp only [printValue, List.cons_append, List.nil_append]
    exact parseValue_false_tok f' rest
  | Json.bool true, f, w, l, ws, rest => by
    intro hf hws hrest
    obtain ⟨f', rfl⟩ : ∃ f', f = f' + 1 := ⟨f - 1, by simp only [jsize, jsizeArr, jsizeObj] at hf; omega⟩
    rw [parseValue_ws f' ws _ hws]
    simp only [printValue, List.cons_append, List.nil_append]
    exact parseValue_true_tok f' rest
  | Json.num (Int.ofNat n), f, w, l, ws, rest => by
    intro hf hws hrest
    obtain ⟨f', rfl⟩ : ∃ f', f = f' + 1 := ⟨f - 1, by simp only [jsize, jsizeArr, jsizeObj] at hf; omega⟩
    rw [parseValue_ws f' ws _ hws]
    simp only [printValue, printInt]
    obtain ⟨c, cs, hc, hd⟩ := printNat_head n
    have h0 : parseDigits 0 (printNat n ++ rest) = (n, rest) := by
      rw [parseDigits_printNat n 0 rest, parseDigits_stop _ _ hrest]
      simp
    rw [hc, List.cons_append] at h0 ⊢
    rw [parseValue_digit f' c _ hd]
    rw [parseDigits] at h0
    rw [hd] at h0
    simp only [if_true, Nat.zero_mul, Nat.zero_add] at h0
    rw [h0]
    rfl
  | Json.num (Int.negSucc m), f, w, l, ws, rest => by
    intro hf hws hrest
    obtain ⟨f', rfl⟩ : ∃ f', f = f' + 1 := ⟨f - 1, by simp only [jsize, jsizeArr, jsizeObj] at hf; omega⟩
    rw [parseValue_ws f' ws _ hws]
    simp only [printValue, printInt, List.cons_append]
    obtain ⟨c, cs, hc, hd⟩ := printNat_head (m + 1)
    have h0 : parseDigits 0 (printNat (m + 1) ++ rest) = (m + 1, rest) := by
      rw [parseDigits_printNat (m + 1) 0 rest, parseDigits_stop _ _ hrest]
      simp
    rw [hc, List.cons_append] at h0 ⊢
    rw [parseValue_minus]
    rw [parseDigits] at h0
    rw [hd] at h0
    simp only [if_true, Nat.zero_mul, Nat.zero_add] at h0
    simp only [hd, if_true, h0]
    rfl
  | Json.str s, f, w, l, ws, rest => by
    intro hf hws hrest
    obtain ⟨f', rfl⟩ : ∃ f', f = f' + 1 := ⟨f - 1, by simp only [jsize, jsizeArr, jsizeObj] at hf; omega⟩
    rw [parseValue_ws f' ws _ hws]
    simp only [printValue, printString, List.cons_append, List.append_assoc,
      List.nil_append]
    rw [parseValue_quote, parseStringBody_escape]
    rfl
  | Json.arr JsonArr.nil, f, w, l, ws, rest => by
    intro hf hws hrest
    obtain ⟨f', rfl⟩ : ∃ f', f = f' + 1 := ⟨f - 1, by simp only [jsize, jsizeArr, jsizeObj] at hf; omega⟩
    rw [parseValue_ws f' ws _ hws]
    simp only [printValue, List.cons_append, List.nil_append]
    rw [parseValue_lbracket, skipWs_not_ws _ _ (by decide)]
    rfl
  | Json.arr (JsonArr.cons x t), f, w, l, ws, rest => by
    intro hf hws hrest
    obtain ⟨f', rfl⟩ : ∃ f', f = f' + 1 := ⟨f - 1, by simp only [jsize, jsizeArr, jsizeObj] at hf; omega⟩
    rw [parseValue_ws f' ws _ hws]
    simp only [printValue, List.cons_append, List.append_assoc, List.nil_append]
    rw [parseValue_lbracket]
    obtain ⟨c0, cs0, hc0, hd0⟩ := printValue_head w (l + 1) x
    obtain ⟨hnw, hnrb, -⟩ := valueStart_facts c0 hd0
    obtain ⟨tail0, hpe⟩ := printElems_head w (l + 1) x t c0 cs0 hc0
    have hskip : skipWs (pad w (l + 1) ++ (printElems w (l + 1) (JsonArr.cons x t) ++
        (pad w l ++ (']' :: rest)))) =
        c0 :: (tail0 ++ (pad w l ++ (']' :: rest))) := by
      rw [skipWs_append_ws _ _ (wsList_pad w (l + 1)), hpe, List.cons_append,
        skipWs_not_ws _ _ hnw]
    rw [hskip]
    split
    · next r heq =>
      injection heq with h1 h2
      exact absurd h1 hnrb
    · rw [parseElems_print x t f' w (l + 1) (pad w (l + 1)) (pad w l) rest
        (by simp only [jsize, jsizeArr] at hf ⊢; omega)
        (wsList_pad w (l + 1)) (wsList_pad w l) hrest]
      rfl
  | Json.obj JsonObj.nil, f, w, l, ws, rest => by
    intro hf hws hrest
    obtain ⟨f', rfl⟩ : ∃ f', f = f' + 1 := ⟨f - 1, by simp only [jsize, jsizeArr, jsizeObj] at hf; omega⟩
    rw [parseValue_ws f' ws _ hws]
    simp only [printValue, List.cons_append, List.nil_append]
    rw [parseValue_lbrace, skipWs_not_ws _ _ (by decide)]
    rfl
  | Json.obj (JsonObj.cons k v2 t), f, w, l, ws, rest => by
    intro hf hws hrest
    obtain ⟨f', rfl⟩ : ∃ f', f = f' + 1 := ⟨f - 1, by simp only [jsize, jsizeArr, jsizeObj] at hf; omega⟩
    rw [parseValue_ws f' ws _ hws]
    simp only [printValue, List.cons_append, List.append_assoc, List.nil_append]
    rw [parseValue_lbrace]
    obtain ⟨tailm, hpm⟩ := printMembers_head w (l + 1) k v2 t
    have hskip : skipWs (pad w (l + 1) ++ (printMembers w (l + 1) (JsonObj.cons k v2 t) ++
        (pad w l ++ ('\x7d' :: rest)))) =
        '"' :: (tailm ++ (pad w l ++ ('\x7d' :: rest))) := by
      rw [skipWs_append_ws _ _ (wsList_pad w (l + 1)), hpm, List.cons_append,
        skipWs_not_ws _ _ (by decide)]
    rw [hskip]
    split
    · next r heq =>
      injection heq with h1 h2
      exact absurd h1 (by decide)
    · rw [parseMembers_print k v2 t f' w (l + 1) (pad w (l + 1)) (pad w l) rest
        (by simp only [jsize, jsizeObj] at hf ⊢; omega)
        (wsList_pad w (l + 1)) (wsList_pad w l) hrest]
      rfl
termination_by v f w l ws rest => sizeOf v
decreasing_by all_goals (simp_wf; try omega)

theorem parseElems_print : ∀ (x : Json) (t : JsonArr) (f w l : Nat)
    (ws padc rest : List Char),
    jsizeArr (JsonArr.cons x t) ≤ f → wsList ws = true → wsList padc = true →
    headNonDigit rest = true →
    parseElems f (ws ++ (printElems w l (JsonArr.cons x t) ++ (padc ++ (']' :: rest)))) =
      some (JsonArr.cons x t, rest)
  | x, JsonArr.nil, f, w, l, ws, padc, rest => by
    intro hf hws hpadc hrest
    obtain ⟨f', rfl⟩ : ∃ f', f = f' + 1 := ⟨f - 1, by simp only [jsizeArr] at hf; omega⟩
    rw [parseElems]
    simp only [printElems]
    rw [parseValue_print x f' w l ws (padc ++ (']' :: rest))
      (by simp only [jsizeArr] at hf; omega) hws
      (headNonDigit_ws_cons padc ']' rest hpadc (by decide))]
    dsimp only
    rw [skipWs_append_ws _ _ hpadc, skipWs_not_ws _ _ (by decide)]
    dsimp only
    rw [if_neg (by decide), if_pos rfl]
  | x, JsonArr.cons y t2, f, w, l, ws, padc, rest => by
    intro hf hws hpadc hrest
    obtain ⟨f', rfl⟩ : ∃ f', f = f' + 1 := ⟨f - 1, by simp only [jsizeArr] at hf; omega⟩
    rw [parseElems]
    simp only [printElems, List.cons_append, List.append_assoc, List.nil_append]
    rw [parseValue_print x f' w l ws
      (',' :: (pad w l ++ (printElems w l (JsonArr.cons y t2) ++ (padc ++ (']' :: rest)))))
      (by simp only [jsizeArr] at hf; omega) hws rfl]
    dsimp only
    rw [skipWs_not_ws _ _ (by decide)]
    dsimp only
    rw [if_pos rfl]
    rw [parseElems_print y t2 f' w l (pad w l) padc rest
      (by simp only [jsizeArr] at hf ⊢; omega) (wsList_pad w l) hpadc hrest]
    rfl
termination_by x t f w l ws padc rest => sizeOf (JsonArr.cons x t)
decreasing_by all_goals (simp_wf; try omega)

theorem parseMembers_print : ∀ (k : String) (v : Json) (t : JsonObj) (f w l : Nat)
    (ws padc rest : List Char),
    jsizeObj (JsonObj.cons k v t) ≤ f → wsList ws = true → wsList padc = true →
    headNonDigit rest = true →
    parseMembers f (ws ++ (printMembers w l (JsonObj.cons k v t) ++
        (padc ++ ('\x7d' :: rest)))) =
      some (JsonObj.cons k v t, rest)
  | k, v, JsonObj.nil, f, w, l, ws, padc, rest => by
    intro hf hws hpadc hrest
    obtain ⟨f', rfl⟩ : ∃ f', f = f' + 1 := ⟨f - 1, by simp only [jsizeObj] at hf; omega⟩
    rw [parseMembers]
    simp only [printMembers, printString, List.cons_append, List.append_assoc,
      List.nil_append]
    rw [skipWs_append_ws _ _ hws, skipWs_not_ws _ _ (by decide)]
    dsimp only
    rw [if_pos rfl, parseStringBody_escape]
    dsimp only
    rw [colonPad_eq, List.cons_append, skipWs_not_ws _ _ (by decide)]
    dsimp only
    rw [if_pos rfl]
    rw [parseValue_print v f' w l (colonTail w) (padc ++ ('\x7d' :: rest))
      (by simp only [jsizeObj] at hf; omega) (wsList_colonTail w)
      (headNonDigit_ws_cons padc '\x7d' rest hpadc (by decide))]
    dsimp only
    rw [skipWs_append_ws _ _ hpadc, skipWs_not_ws _ _ (by decide)]
    dsimp only
    rw [if_neg (by decide), if_pos rfl]
  | k, v, JsonObj.cons k2 v2 t2, f, w, l, ws, padc, rest => by
    intro hf hws hpadc hrest
    obtain ⟨f', rfl⟩ : ∃ f', f = f' + 1 := ⟨f - 1, by simp only [jsizeObj] at hf; omega⟩
    rw [parseMembers]
    simp only [printMembers, printString, List.cons_append, List.append_assoc,
      List.nil_append]
    rw [skipWs_append_ws _ _ hws, skipWs_not_ws _ _ (by decide)]
    dsimp only
    rw [if_pos rfl, parseStringBody_escape]
    dsimp only
    rw [colonPad_eq, List.cons_append, skipWs_not_ws _ _ (by decide)]
    dsimp only
    rw [if_pos rfl]
    rw [parseValue_print v f' w l (colonTail w)
      (',' :: (pad w l ++ (printMembers w l (JsonObj.cons k2 v2 t2) ++
        (padc ++ ('\x7d' :: rest)))))
      (by simp only [jsizeObj] at hf; omega) (wsList_colonTail w) rfl]
    dsimp only
    rw [skipWs_not_ws _ _ (by decide)]
    dsimp only
    rw [if_pos rfl]
    rw [parseMembers_print k2 v2 t2 f' w l (pad w l) padc rest
      (by simp only [jsizeObj] at hf ⊢; omega) (wsList_pad w l) hpadc hrest]
    rfl
termination_by k v t f w l ws padc rest => sizeOf (JsonObj.cons k v t)
decreasing_by all_goals (simp_wf; try omega)

end

/-! ## Round trip: the printed text is long enough for the parse fuel -/

mutual

theorem jsize_le_printLength : ∀ (v : Json) (w l : Nat),
    jsize v ≤ (printValue w l v).length
  | Json.null, w, l => by simp [printValue, jsize]
  | Json.bool false, w, l => by simp [printValue, jsize]
  | Json.bool true, w, l => by simp [printValue, jsize]
  | Json.num (Int.ofNat n), w, l => by
    simp only [printValue, printInt, jsize]
    cases h : printNat n with
    | nil => exact absurd h (printNat_ne_nil n)
    | cons c cs => simp
  | Json.num (Int.negSucc m), w, l => by simp [printValue, printInt, jsize]
  | Json.str s, w, l => by simp [printValue, printString, jsize]
  | Json.arr JsonArr.nil, w, l => by simp [printValue, jsize, jsizeArr]
  | Json.arr (JsonArr.cons x t), w, l => by
    have h := jsizeArr_le_printElems x t w (l + 1)
    simp only [printValue, jsize, List.length_cons, List.length_append]
    omega
  | Json.obj JsonObj.nil, w, l => by simp [printValue, jsize, jsizeObj]
  | Json.obj (JsonObj.cons k v2 t), w, l => by
    have h := jsizeObj_le_printMembers k v2 t w (l + 1)
    simp only [printValue, jsize, List.length_cons, List.length_append]
    omega
termination_by v w l => sizeOf v
decreasing_by all_goals (simp_wf; try omega)

theorem jsizeArr_le_printElems : ∀ (x : Json) (t : JsonArr) (w l : Nat),
    jsizeArr (JsonArr.cons x t) ≤ (printElems w l (JsonArr.cons x t)).length + 1
  | x, JsonArr.nil, w, l => by
    have h := jsize_le_printLength x w l
    simp only [printElems, jsizeArr]
    omega
  | x, JsonArr.cons y t2, w, l => by
    have h1 := jsize_le_printLength x w l
    have h2 := jsizeArr_le_printElems y t2 w l
    simp only [jsizeArr] at h2
    simp only [printElems, jsizeArr, List.length_append, List.length_cons]
    omega
termination_by x t w l => sizeOf (JsonArr.cons x t)
decreasing_by all_goals (simp_wf; try omega)

theorem jsizeObj_le_printMembers : ∀ (k : String) (v : Json) (t : JsonObj) (w l : Nat),
    jsizeObj (JsonObj.cons k v t) ≤ (printMembers w l (JsonObj.cons k v t)).length + 1
  | k, v, JsonObj.nil, w, l => by
    have h := jsize_le_printLength v w l
    simp only [printMembers, jsizeObj, List.length_append]
    omega
  | k, v, JsonObj.cons k2 v2 t2, w, l => by
    have h1 := jsize_le_printLength v w l
    have h2 := jsizeObj_le_printMembers k2 v2 t2 w l
    simp only [jsizeObj] at h2
    simp only [printMembers, jsizeObj, List.length_append, List.length_cons]
    omega
termination_by k v t w l => sizeOf (JsonObj.cons k v t)
decreasing_by all_goals (simp_wf; try omega)

end

/-- Theorem: `JSON.parse` inverts `JSON.stringify` at every value and indent. -/
theorem jsonParse_stringify (v : Json) (indent : Nat) :
    jsonParse (jsonStringify v indent) = Except.ok v := by
  have hp := parseValue_print v ((printValue (min indent 10) 0 v).length + 1)
    (min indent 10) 0 [] []
    (by have := jsize_le_printLength v (min indent 10) 0; omega) rfl rfl
  simp only [List.nil_append, List.append_nil] at hp
  rw [jsonParse, jsonStringify]
  dsimp only
  rw [hp]
  dsimp only
  simp [skipWs]

/-- C5: storing a value and loading it back returns a deep-equal value, for every
JSON value (empty object and array, nesting, and arrays of any length included),
whenever the path itself is not subject to an injected I/O failure. -/
theorem c5_store_load_roundtrip (fs : FS) (p : String) (v : Json)
    (h1 : fs.ioFailure (dirname p) = none) (h2 : fs.ioFailure p = none) :
    storeThenLoad fs p v = Except.ok v := by
  simp only [storeThenLoad, JsonDb.store, JsonDb.storeWith, mkdirSyncRec, h1,
    writeFileSync, h2, JsonDb.load, readFileSync, beq_self_eq_true, Bool.true_or,
    if_true, jsonParse_stringify]

/-- A nested value exercising objects, arrays, numbers, strings and null. -/
def roundTripValue : Json :=
  Json.obj (JsonObj.cons "a"
    (Json.arr (JsonArr.cons (Json.num 1) (JsonArr.cons Json.null JsonArr.nil)))
    (JsonObj.cons "b" (Json.str "x") JsonObj.nil))

/-- C5 witness: the round trip at a concrete path and nested value on the empty
file system. -/
theorem c5_witness :
    emptyFS.ioFailure (dirname "test-data/db.json") = none ∧
    emptyFS.ioFailure "test-data/db.json" = none ∧
    storeThenLoad emptyFS "test-data/db.json" roundTripValue = Except.ok roundTripValue :=
  ⟨rfl, rfl, c5_store_load_roundtrip emptyFS "test-data/db.json" roundTripValue rfl rfl⟩
